import Mathlib

/-!
Verification development for the MIR terminator-lowering pass
(`src/librustc_trans/mir/block.rs`): a shallow embedding of the
funclet-aware branch helpers, landing-pad cache, assertion lowering,
return lowering, argument marshaling and return-destination resolution,
together with theorems about their behaviour.
-/

namespace MirBlock

/-- Fatal compiler-internal defects (`bug!` / `span_bug!` / failing `assert!` /
panicking unwraps and out-of-bounds indexing) reachable from the embedded code. -/
inductive Bug where
  /-- `span_bug!(span, "{:?} - jump out of cleanup?")` in the `lltarget` closure. -/
  | jumpOutOfCleanup
  /-- `span_bug!(self.mir.span, "landing pad was not inserted?")` in `landing_pad_uncached`. -/
  | landingPadNotInserted
  /-- a panicking `Option::unwrap` (e.g. `cleanup_pad.unwrap()`). -/
  | unwrapNone
  /-- `bug!("use of return before def")` in the Return arm. -/
  | useOfReturnBeforeDef
  /-- `assert_eq!(align, Alignment::AbiAligned, "return pointer is unaligned!")`. -/
  | returnPointerUnaligned
  /-- `bug!("lvalue local already assigned to")` in `make_return_dest`. -/
  | lvalueLocalAlreadyAssigned
  /-- `span_bug!(self.mir.span, "can't directly store to unaligned value")`. -/
  | storeUnaligned
  /-- `bug!("Cannot use direct operand with an intrinsic call")`. -/
  | directOperandWithIntrinsic
  /-- a panicking slice/array index (e.g. `fn_ty.args[*next_idx]`, `elems[n]`). -/
  | indexOutOfRange
  /-- a field access past the end of a struct layout. -/
  | fieldOutOfRange
  /-- `span_bug!(.., "bad final argument to \"rust-call\" fn ..")`. -/
  | badUntupleArg
deriving DecidableEq

/-- The name passed to `new_block`, as an enumeration (the source uses strings). -/
inductive BlockName where
  /-- `"cleanup"`: a landing pad body (`landing_pad_uncached`). -/
  | cleanup
  /-- `"panic"`: the failure block of an Assert terminator. -/
  | panicName
  /-- `"unreachable"`: the shared unreachable block. -/
  | unreachableName
  /-- `"{bb}_cleanup_trampoline_{target}"`: an MSVC cross-funclet trampoline. -/
  | trampoline (bb target : Nat)
deriving DecidableEq

/-- The per-function lowering context (`MirContext`), restricted to the fields the
terminator-lowering code reads and writes: the realized-block map, the per-block
funclet classification (`cleanup_kinds[b].funclet_bb(b)`), the realized funclet
pads (`self.funclets`), the landing-pad cache, the `is_cleanup` flag of each MIR
block, the platform flags, the personality slot, the cached unreachable block and
a fresh-name supply recording every block created by `new_block`. -/
structure FnState where
  /-- `self.blocks : IndexVec<BasicBlock, BasicBlockRef>`. -/
  blocks : Nat → Nat
  /-- `self.cleanup_kinds[b].funclet_bb(b)`: the funclet region of each block. -/
  funcletOf : Nat → Option Nat
  /-- `self.funclets[f]` mapped to its cleanup pad value, per funclet head block. -/
  funclets : Nat → Option Nat
  /-- `self.landing_pads : IndexVec<BasicBlock, Option<BasicBlockRef>>`. -/
  landingPads : Nat → Option Nat
  /-- `self.mir[bb].is_cleanup`. -/
  isCleanup : Nat → Bool
  /-- `base::wants_msvc_seh(sess)`: funclet-based unwinding is active. -/
  msvc : Bool
  /-- `bcx.ccx.check_overflow()`. -/
  checkOverflow : Bool
  /-- `self.llpersonalityslot`. -/
  personalitySlot : Option Nat
  /-- `self.unreachable_block`. -/
  unreachableBlock : Option Nat
  /-- fresh supply for low-level block handles. -/
  nextBlock : Nat
  /-- fresh supply for value handles (allocas). -/
  nextVal : Nat
  /-- blocks created so far by `new_block`, most recent first. -/
  created : List (Nat × BlockName)

/-- `self.new_block(name)`: create a fresh low-level block. -/
def new_block (st : FnState) (name : BlockName) : Nat × FnState :=
  (st.nextBlock,
   { st with nextBlock := st.nextBlock + 1,
             created := (st.nextBlock, name) :: st.created })

/-- `get_personality_slot`: the lazily allocated, per-function memory cell for the
in-flight exception payload. -/
def get_personality_slot (st : FnState) : Nat × FnState :=
  match st.personalitySlot with
  | some slot => (slot, st)
  | none =>
    (st.nextVal,
     { st with personalitySlot := some st.nextVal, nextVal := st.nextVal + 1 })

/-- `landing_pad_uncached(target_bb)`: materialize the landing pad body for a
realized target block.  Under MSVC SEH this is a compiler bug (pads are inserted
elsewhere); under the table-based scheme it creates one `"cleanup"` block, emits a
`landingpad` instruction bound to the personality function, stores the payload into
the (lazily created) personality slot and branches on to the real target. -/
def landing_pad_uncached (st : FnState) (targetBlock : Nat) :
    Except Bug (Nat × FnState) :=
  if st.msvc then .error .landingPadNotInserted
  else
    let (b, st) := new_block st .cleanup
    -- landing pad instruction, set_cleanup, lifetime start, store, br target_bb:
    -- only the personality-slot allocation is observable in this model.
    let (_slot, st) := get_personality_slot st
    let _ := targetBlock
    .ok (b, st)

/-- `landing_pad_to(target_bb)`: return the landing pad wrapper around the given
MIR block, materializing and caching it on first use. -/
def landing_pad_to (st : FnState) (targetBb : Nat) : Except Bug (Nat × FnState) :=
  match st.landingPads targetBb with
  | some block => .ok (block, st)
  | none =>
    match landing_pad_uncached st (st.blocks targetBb) with
    | .error e => .error e
    | .ok (lp, st) =>
      .ok (lp, { st with
                   landingPads := fun t => if t = targetBb then some lp else st.landingPads t })

/-- The `lltarget` closure of `trans_terminator`: given the funclet region of the
source block (`funclet_bb`) and a MIR target, decide the realized successor block
and whether the edge needs a `cleanupret` (funclet exit). -/
def lltarget (st : FnState) (funclet_bb : Option Nat) (target : Nat) :
    Except Bug ((Nat × Bool) × FnState) :=
  let llt := st.blocks target
  match funclet_bb, st.funcletOf target with
  | none, none => .ok ((llt, false), st)
  | some f, some tf =>
    if f = tf || !st.msvc then .ok ((llt, false), st)
    else
      -- MSVC cross-funclet edge: route through the landing pad, funclet exit needed
      match landing_pad_to st target with
      | .error e => .error e
      | .ok (lp, st) => .ok ((lp, true), st)
  | none, some _ =>
    -- jump *into* cleanup - need a landing pad if GNU
    match landing_pad_to st target with
    | .error e => .error e
    | .ok (lp, st) => .ok ((lp, false), st)
  | some _, none => .error .jumpOutOfCleanup

/-- The `llblock` closure: like `lltarget`, but when a funclet exit is required it
creates a one-instruction trampoline block (containing only a `cleanupret` to the
landing pad) and returns the trampoline's handle. -/
def llblock (st : FnState) (bb : Nat) (funclet_bb : Option Nat)
    (cleanupPad : Option Nat) (target : Nat) : Except Bug (Nat × FnState) :=
  match lltarget st funclet_bb target with
  | .error e => .error e
  | .ok ((llt, isCleanupret), st) =>
    if isCleanupret then
      match cleanupPad with
      | none => .error .unwrapNone   -- cleanup_pad.unwrap()
      | some _pad =>
        let (tramp, st) := new_block st (.trampoline bb target)
        -- trampoline.cleanup_ret(cleanup_pad, Some(lltarget))
        let _ := llt
        .ok (tramp, st)
    else .ok (llt, st)

/-- The branch instruction emitted by `funclet_br`. -/
inductive BranchInstr where
  /-- `bcx.br(lltarget)`. -/
  | br (b : Nat)
  /-- `bcx.cleanup_ret(cleanup_pad, Some(lltarget))`. -/
  | cleanupRet (pad : Nat) (b : Nat)
deriving DecidableEq

/-- The `funclet_br` closure: the funclet-aware branch helper.  A funclet-exit edge
emits a `cleanupret` directly (micro-optimization: no trampoline); every other edge
emits an ordinary branch to the block `lltarget` resolved. -/
def funclet_br (st : FnState) (funclet_bb : Option Nat) (cleanupPad : Option Nat)
    (target : Nat) : Except Bug (BranchInstr × FnState) :=
  match lltarget st funclet_bb target with
  | .error e => .error e
  | .ok ((llt, isCleanupret), st) =>
    if isCleanupret then
      match cleanupPad with
      | none => .error .unwrapNone   -- cleanup_pad.unwrap()
      | some pad => .ok (.cleanupRet pad llt, st)
    else .ok (.br llt, st)

/-- `unreachable_block`: the lazily created, cached shared unreachable block. -/
def unreachable_block (st : FnState) : Nat × FnState :=
  match st.unreachableBlock with
  | some b => (b, st)
  | none =>
    let (b, st) := new_block st .unreachableName
    (b, { st with unreachableBlock := some b })

/-- `funclet.map(|lp| lp.cleanuppad())`: the cleanup pad of the source block's
funclet, if the source block sits in a realized funclet. -/
def cleanup_pad_of (st : FnState) (funclet_bb : Option Nat) : Option Nat :=
  funclet_bb.bind st.funclets

/-! ### Assert lowering (`mir::TerminatorKind::Assert` arm of `trans_terminator`) -/

/-- An already-evaluated scalar operand, as seen by the Assert arm: either a
compile-time constant or a runtime value. -/
inductive CVal where
  | constV (n : Nat)
  | dynV (id : Nat)
deriving DecidableEq

/-- Modelled from the spec: `common::const_to_opt_u128` (the constant-evaluation
query lives outside this file) — a statically known operand yields its constant
value, anything else yields `none`. -/
def const_to_opt_u128 : CVal → Option Nat
  | .constV n => some n
  | .dynV _ => none

/-- `rustc_const_math::Op`, restricted to the constructors this file names. -/
inductive MathOp where
  | add | sub | mul | div | rem | neg | shr | shl
deriving DecidableEq

/-- `rustc_const_math::ConstMathErr`, restricted to the shape this file matches on. -/
inductive ConstMathErrM where
  | overflow (op : MathOp)
  | divisionByZero
  | remainderByZero
deriving DecidableEq

/-- `mir::AssertMessage`. -/
inductive AssertMessageM where
  | boundsCheck (len index : CVal)
  | math (err : ConstMathErrM)
  | generatorResumedAfterReturn
  | generatorResumedAfterPanic
deriving DecidableEq

/-- `ErrKind`, restricted to the constructors built by the Assert arm. -/
inductive ErrKindM where
  | indexOutOfBounds (len index : Nat)
  | math (err : ConstMathErrM)
deriving DecidableEq

/-- The panic entry points (`lang_items`) an Assert can call. -/
inductive LangItemM where
  | panicBoundsCheckFn
  | panicFn
deriving DecidableEq

/-- The (possibly corrected) static truth value of the assert condition:
`const_to_opt_u128(cond).map(|c| c == 1)`, overwritten with `Some(expected)` when
overflow checking is off and the message is a negation-overflow check. -/
def assert_const_cond (checkOverflow : Bool) (cond : CVal) (expected : Bool)
    (msg : AssertMessageM) : Option Bool :=
  let c0 := (const_to_opt_u128 cond).map (fun c => decide (c = 1))
  if !checkOverflow then
    match msg with
    | .math (.overflow .neg) => some expected
    | _ => c0
  else c0

/-- The constant error payload computed while assembling the panic arguments:
for a bounds check, present when both `len` and `index` are statically known;
for a math assert, always present; for the generator messages, never. -/
def assert_const_err : AssertMessageM → Option ErrKindM
  | .boundsCheck len index =>
    (const_to_opt_u128 len).bind fun l =>
      (const_to_opt_u128 index).map fun i => .indexOutOfBounds l i
  | .math e => some (.math e)
  | .generatorResumedAfterReturn => none
  | .generatorResumedAfterPanic => none

/-- What a `do_call` with no destination observably does. -/
structure CallOut where
  /-- an `invoke` with an unwind edge was emitted (vs. a plain `call`). -/
  invoke : Bool
  /-- the `NoInline` attribute was applied (call inside a cleanup block). -/
  noInline : Bool
deriving DecidableEq

/-- The `do_call` closure, specialized to `destination == None` (the only form the
Assert arm uses): with an unwind target, resolve the normal edge to the shared
unreachable block, resolve the unwind edge through `llblock` and emit an `invoke`;
without one, emit a plain `call` (NoInline inside cleanup blocks) followed by
`unreachable`. -/
def do_call_no_dest (st : FnState) (bb : Nat) (funclet_bb : Option Nat)
    (cleanupPad : Option Nat) (cleanup : Option Nat) :
    Except Bug (CallOut × FnState) :=
  match cleanup with
  | some c =>
    let (_retBcx, st) := unreachable_block st
    match llblock st bb funclet_bb cleanupPad c with
    | .error e => .error e
    | .ok (_unwindDest, st) => .ok ({ invoke := true, noInline := false }, st)
  | none =>
    .ok ({ invoke := false, noInline := st.isCleanup bb }, st)

/-- The observable outcome of lowering one Assert terminator. -/
structure AssertOut where
  /-- `Some target` iff the success-is-known early return was taken. -/
  successTarget : Option Nat
  /-- the branch instruction emitted by the early `funclet_br`, if taken. -/
  earlyBranch : Option BranchInstr
  /-- the conditional branch `(true destination, false destination)`, if emitted. -/
  condBr : Option (Nat × Nat)
  /-- the `"panic"` block, if one was created. -/
  panicBlock : Option Nat
  /-- the advisory "this expression will panic at run-time" warning was emitted. -/
  warning : Bool
  /-- the runtime panic entry point called, with its value arguments. -/
  call : Option (LangItemM × List CVal)
deriving DecidableEq

/-- The `mir::TerminatorKind::Assert` arm of `trans_terminator`: compute the static
truth value of the condition (with the negation-overflow carve-out), branch straight
to the success target when success is known, and otherwise create the panic block,
emit the guarded conditional branch, possibly emit the advisory warning, and call
the matching panic entry point (the `file/line/col` location constants are elided
from the modelled argument list). -/
def trans_assert (st : FnState) (bb : Nat) (cond : CVal) (expected : Bool)
    (msg : AssertMessageM) (target : Nat) (cleanup : Option Nat) :
    Except Bug (AssertOut × FnState) :=
  let funclet_bb := st.funcletOf bb
  let pad := cleanup_pad_of st funclet_bb
  let constCond := assert_const_cond st.checkOverflow cond expected msg
  -- Don't translate the panic block if success if known.
  if constCond = some expected then
    match funclet_br st funclet_bb pad target with
    | .error e => .error e
    | .ok (instr, st) =>
      .ok ({ successTarget := some target, earlyBranch := some instr, condBr := none,
             panicBlock := none, warning := false, call := none }, st)
  else
    -- `llvm.expect` branch hint on the condition: no observable effect here.
    match llblock st bb funclet_bb pad target with
    | .error e => .error e
    | .ok (lltgt, st) =>
      let (pb, st) := new_block st .panicName
      let cbr := if expected then (lltgt, pb) else (pb, lltgt)
      let (langItem, args) : LangItemM × List CVal :=
        match msg with
        | .boundsCheck len index => (.panicBoundsCheckFn, [index, len])
        | _ => (.panicFn, [])
      let warning :=
        if constCond = some (!expected) then (assert_const_err msg).isSome else false
      match do_call_no_dest st bb funclet_bb pad cleanup with
      | .error e => .error e
      | .ok (_callOut, st) =>
        .ok ({ successTarget := none, earlyBranch := none, condBr := some cbr,
               panicBlock := some pb, warning := warning, call := some (langItem, args) },
             st)

/-! ### Value model shared by the Return / argument-marshaling code -/

/-- A low-level value (`ValueRef`), modelled semantically: a scalar with a bit
width (bools live in memory as width-8 `i8` and are passed as width-1 `i1`), or a
first-class aggregate of values.  Memory contents are modelled by the same type
(the value stored at an address stands in for the address). -/
inductive Vl where
  | scalar (val : Nat) (width : Nat)
  | agg (elems : List Vl)

/-- `base::from_immediate`: booleans (`i1` values) are zero-extended to `i8`
before being stored to memory. Modelled from the spec: booleans are stored wide
but passed narrow. -/
def fromImmediate : Vl → Vl
  | .scalar n w => if w = 1 then .scalar n 8 else .scalar n w
  | v => v

/-- `trunc .. i1`: truncate a scalar to the 1-bit passing width. -/
def truncToI1 : Vl → Vl
  | .scalar n _ => .scalar (n % 2) 1
  | v => v

/-- `common::val_ty(v) == Type::i1`. -/
def Vl.isI1 : Vl → Bool
  | .scalar _ w => decide (w = 1)
  | _ => false

/-- A struct-field access (`extract_value` on an aggregate, or a load through
`trans_field_ptr`); out-of-range accesses are compiler defects.  Modelled from
the spec: `adt::struct_llfields_index` is taken to be the identity, one slot per
field, matching the Value data model. -/
def Vl.field (v : Vl) (n : Nat) : Except Bug Vl :=
  match v with
  | .agg es =>
    match es[n]? with
    | some e => .ok e
    | none => .error .fieldOutOfRange
  | .scalar _ _ => .error .fieldOutOfRange

/-- `Alignment` (`mir::lvalue::Alignment`): the alignment class of memory. -/
inductive Alignment where
  | abiAligned
  | packed
deriving DecidableEq

/-- `OperandValue`: how a value is represented in a block. -/
inductive OpVal where
  /-- `Immediate(llval)`. -/
  | imm (v : Vl)
  /-- `Pair(a, b)`. -/
  | pair (a b : Vl)
  /-- `Ref(llval, align)`: the value lives in memory; `m` is the stored content. -/
  | ref (m : Vl) (align : Alignment)

/-- The calling-convention class of an `ArgType`. -/
inductive ArgKind where
  | direct
  | indirect
  | ignore
deriving DecidableEq

/-- `abi::ArgType`, restricted to the fields this file reads: the class, the
optional bit-cast type, the optional padding type, and whether `arg.layout.ty`
is `bool`. -/
structure ArgTy where
  kind : ArgKind
  cast : Option Nat
  pad : Option Nat
  tyIsBool : Bool
deriving DecidableEq

/-- `ArgType::is_ignore`. -/
def ArgTy.is_ignore (a : ArgTy) : Bool :=
  match a.kind with
  | .ignore => true
  | _ => false

/-- `ArgType::is_indirect`. -/
def ArgTy.is_indirect (a : ArgTy) : Bool :=
  match a.kind with
  | .indirect => true
  | _ => false

/-- Modelled from the spec: `store_operand` (in `operand.rs`) — the memory content
produced by spilling an operand to a scratch slot; immediates are widened by
`from_immediate`, pairs become two-field structs. -/
def store_operand_content : OpVal → Vl
  | .imm v => fromImmediate v
  | .pair a b => .agg [fromImmediate a, fromImmediate b]
  | .ref m _ => m

/-- Modelled from the spec: `OperandRef::pack_if_pair(..).immediate()` (in
`operand.rs`) — a pair is packed into a single two-field aggregate value, an
immediate passes through. -/
def pack_if_pair : OpVal → Vl
  | .imm v => v
  | .pair a b => .agg [a, b]
  | .ref m _ => m

/-! ### Return lowering (`mir::TerminatorKind::Return` arm) -/

/-- A statically-typed MIR type, restricted to the queries this file makes
(`is_bool`, `type_is_fat_ptr`, tuple decomposition). -/
inductive MTy where
  | bool
  | scalarTy
  | fatPtr
  | tup (tys : List MTy)
  | err

/-- `ty.is_bool()`. -/
def MTy.isBool : MTy → Bool
  | .bool => true
  | _ => false

/-- Modelled from the spec: `common::type_is_fat_ptr`. -/
def type_is_fat_ptr : MTy → Bool
  | .fatPtr => true
  | _ => false

/-- `OperandRef`: a value plus its type. -/
structure OperandM where
  val : OpVal
  ty : MTy

/-- `LocalRef`: the slot of one MIR local. -/
inductive LocalRefM where
  /-- `LocalRef::Lvalue(LvalueRef { llval, alignment, ty })`; `m` stands for the
  memory content at `llval`. -/
  | lvalue (m : Vl) (align : Alignment) (ty : MTy)
  /-- `LocalRef::Operand(op?)`. -/
  | operand (op : Option OperandM)

/-- The operand obtained for the return slot from `self.locals[RETURN_POINTER]`
(Return arm, cast path; the consume path is Modelled from the spec to behave the
same way: reading an unassigned operand local is a defect). -/
def return_operand : LocalRefM → Except Bug OperandM
  | .operand (some op) => .ok op
  | .operand none => .error .useOfReturnBeforeDef
  | .lvalue m align ty => .ok ⟨.ref m align, ty⟩

/-- The value placed in the emitted `ret`. -/
inductive RetVal where
  /-- a load through `cast_ty.ptr_to()` of memory holding `m`. -/
  | castLoaded (castTy : Nat) (m : Vl)
  /-- `base::load_ty` of a by-ref operand. -/
  | loaded (m : Vl)
  /-- `op.pack_if_pair(..).immediate()`. -/
  | direct (v : Vl)

/-- The instruction ending the Return lowering. -/
inductive RetOut where
  /-- `bcx.ret_void()`. -/
  | retVoid
  /-- `bcx.ret(llval)`. -/
  | ret (v : RetVal)

/-- The `mir::TerminatorKind::Return` arm of `trans_terminator`: an ignored or
indirect return emits `ret_void` at once; a cast return materializes the operand
in memory (asserting an existing memory copy is ABI-aligned) and reloads it
through the cast type; otherwise the operand is consumed and returned by value. -/
def trans_return (retTy : ArgTy) (retLocal : LocalRefM) : Except Bug RetOut :=
  if retTy.is_ignore || retTy.is_indirect then .ok RetOut.retVoid
  else
    match retTy.cast with
    | some castTy =>
      match return_operand retLocal with
      | .error e => .error e
      | .ok op =>
        match op.val with
        | .imm _ =>
          -- fresh scratch alloca, store_operand, reload through the cast type
          .ok (.ret (.castLoaded castTy (store_operand_content op.val)))
        | .pair _ _ =>
          .ok (.ret (.castLoaded castTy (store_operand_content op.val)))
        | .ref m align =>
          if align = .abiAligned then .ok (.ret (.castLoaded castTy m))
          else .error .returnPointerUnaligned
    | none =>
      match return_operand retLocal with
      | .error e => .error e
      | .ok op =>
        match op.val with
        | .ref m _align => .ok (.ret (.loaded m))
        | v => .ok (.ret (.direct (pack_if_pair v)))

/-! ### Return-destination resolution (`make_return_dest`) -/

/-- A call destination lvalue: a plain local, or any other (projected) lvalue. -/
inductive MLvalue where
  | localL (index : Nat)
  | proj (id : Nat)

/-- The slot of a destination local as `make_return_dest` inspects it;
lvalue locals carry the realized address handle directly. -/
inductive DLocal where
  | lvalue (llval : Nat) (align : Alignment)
  | operandNone
  | operandSome
deriving DecidableEq

/-- The context `make_return_dest` runs in: the locals table, the external
lvalue translation for projected destinations (Modelled from the spec:
`trans_lvalue` lives outside this file) and a fresh supply for scratch allocas. -/
structure RdState where
  locals : Nat → DLocal
  transLvalueAddr : Nat → Nat × Alignment
  nextTmp : Nat

/-- `ReturnDest`. -/
inductive ReturnDest where
  /-- do nothing: the return value is indirect or ignored. -/
  | nothing
  /-- store the return value to the pointer. -/
  | store (dst : Nat)
  /-- store an indirect return value to an operand local. -/
  | indirectOperand (tmp : Nat) (index : Nat)
  /-- store a direct return value to an operand local. -/
  | directOperand (index : Nat)
deriving DecidableEq

/-- `make_return_dest`: decide where a call's result lands, pushing the hidden
out-pointer argument onto `llargs` when the return is indirect. -/
def make_return_dest (st : RdState) (dest : MLvalue) (fn_ret_ty : ArgTy)
    (llargs : List Nat) (is_intrinsic : Bool) :
    Except Bug (ReturnDest × List Nat × RdState) :=
  if fn_ret_ty.is_ignore then .ok (.nothing, llargs, st)
  else
    match dest with
    | .localL index =>
      match st.locals index with
      | .lvalue llval align =>
        if fn_ret_ty.is_indirect then
          match align with
          | .abiAligned => .ok (.nothing, llargs ++ [llval], st)
          | .packed => .error .storeUnaligned
        else .ok (.store llval, llargs, st)
      | .operandNone =>
        if fn_ret_ty.is_indirect then
          -- operand temporary with an indirect return: fresh alloca, pushed
          .ok (.indirectOperand st.nextTmp index, llargs ++ [st.nextTmp],
               { st with nextTmp := st.nextTmp + 1 })
        else if is_intrinsic then
          -- intrinsics always need a location to store the result
          .ok (.indirectOperand st.nextTmp index, llargs,
               { st with nextTmp := st.nextTmp + 1 })
        else .ok (.directOperand index, llargs, st)
      | .operandSome => .error .lvalueLocalAlreadyAssigned
    | .proj p =>
      let (llval, align) := st.transLvalueAddr p
      if fn_ret_ty.is_indirect then
        match align with
        | .abiAligned => .ok (.nothing, llargs ++ [llval], st)
        | .packed => .error .storeUnaligned
      else .ok (.store llval, llargs, st)

/-- `C_undef(fn_ty.ret.memory_ty(..).ptr_to())`: the placeholder destination for
an intrinsic whose result is discarded. -/
def undefRetSlot : Nat := 0

/-- The intrinsic result-routing match in the Call arm (the
`(dest, llargs)` selection): an indirect return takes the hidden first argument;
otherwise `Nothing`, `IndirectOperand` and `Store` supply a destination address,
and `DirectOperand` is a compiler bug. -/
def intrinsic_dest_route (fn_ret_ty : ArgTy) (ret_dest : ReturnDest)
    (llargs : List Nat) : Except Bug (Nat × List Nat) :=
  if fn_ret_ty.is_indirect then
    match llargs with
    | d :: rest => .ok (d, rest)
    | [] => .error .indexOutOfRange
  else
    match ret_dest with
    | .nothing => .ok (undefRetSlot, llargs)
    | .indirectOperand dst _ => .ok (dst, llargs)
    | .store dst => .ok (dst, llargs)
    | .directOperand _ => .error .directOperandWithIntrinsic

/-! ### Argument marshaling (`trans_argument`, `trans_arguments_untupled`) -/

/-- `ty::InstanceDef`, restricted to the virtual-dispatch test made here. -/
inductive InstanceDefM where
  | virtualIdx (idx : Nat)
  | ordinary
deriving DecidableEq

/-- Modelled from the spec: `meth::VirtualIndex::from_index(idx).get_fn(bcx, meta)`
— the function pointer fetched from a vtable, as a deterministic function of the
metadata word and the index. -/
def get_vtable_fn : Vl → Nat → Nat
  | .scalar v _, i => v + i
  | .agg _, _ => 0

/-- One entry pushed onto `llargs`. -/
inductive ArgVal where
  /-- `C_undef(ty)`: a padding placeholder. -/
  | undef (ty : Nat)
  /-- a by-value argument. -/
  | direct (v : Vl)
  /-- the address of memory holding `m` (an indirect argument). -/
  | byRef (m : Vl)
  /-- a load through `cast.ptr_to()` of memory holding `m`. -/
  | castLoaded (castTy : Nat) (m : Vl)

/-- The mutable state threaded through argument marshaling: the accumulated
`llargs`, the ABI slot index `next_idx` and the (possibly vtable-resolved)
callee pointer `llfn`. -/
structure MarshalState where
  llargs : List ArgVal
  nextIdx : Nat
  llfn : Option Nat

/-- The value pushed when a by-ref operand must be loaded for a non-indirect slot
(`if by_ref && !arg.is_indirect`): booleans are loaded with a range assert and
truncated to `i1`, a cast slot reloads through the cast pointer, anything else is
a plain load of the stored content. -/
def load_for_arg (arg : ArgTy) (m : Vl) : ArgVal :=
  if arg.tyIsBool then .direct (truncToI1 m)
  else
    match arg.cast with
    | some c => .castLoaded c m
    | none => .direct m

/-- The slot-consuming part of `trans_argument` (everything after the fat-pointer
special case): fetch the next ABI slot, advance `next_idx`, push padding, skip
ignored slots, then choose the representation — spilling immediates/pairs for
indirect or cast slots, re-copying packed memory for indirect slots — and load
back when the final representation is by-ref but the slot is not indirect. -/
def trans_argument_slot (fnArgs : List ArgTy) (op : OperandM) (ms : MarshalState) :
    Except Bug MarshalState :=
  match fnArgs[ms.nextIdx]? with
  | none => .error .indexOutOfRange
  | some arg =>
    let ms := { ms with nextIdx := ms.nextIdx + 1 }
    let ms :=
      match arg.pad with
      | some t => { ms with llargs := ms.llargs ++ [ArgVal.undef t] }
      | none => ms
    if arg.is_ignore then .ok ms
    else
      match op.val with
      | .imm _ =>
        if arg.is_indirect || arg.cast.isSome then
          -- spill to a fresh scratch slot; by_ref at ABI alignment
          let m := store_operand_content op.val
          if arg.is_indirect then .ok { ms with llargs := ms.llargs ++ [.byRef m] }
          else .ok { ms with llargs := ms.llargs ++ [load_for_arg arg m] }
        else .ok { ms with llargs := ms.llargs ++ [.direct (pack_if_pair op.val)] }
      | .pair _ _ =>
        if arg.is_indirect || arg.cast.isSome then
          let m := store_operand_content op.val
          if arg.is_indirect then .ok { ms with llargs := ms.llargs ++ [.byRef m] }
          else .ok { ms with llargs := ms.llargs ++ [load_for_arg arg m] }
        else .ok { ms with llargs := ms.llargs ++ [.direct (pack_if_pair op.val)] }
      | .ref m al =>
        if al = .packed && arg.is_indirect then
          -- copy the unaligned memory into a fresh ABI-aligned scratch slot
          .ok { ms with llargs := ms.llargs ++ [.byRef m] }
        else
          if arg.is_indirect then .ok { ms with llargs := ms.llargs ++ [.byRef m] }
          else .ok { ms with llargs := ms.llargs ++ [load_for_arg arg m] }

/-- `trans_argument`: a fat-pointer pair is decomposed into its two scalar
components, each marshaled independently (resolving the callee from the vtable
when this is the first argument of a virtual call); every other operand consumes
one ABI slot.  The recursive calls of the source pass `Immediate` operands, which
do not recurse further, so they are inlined as slot marshaling. -/
def trans_argument (fnArgs : List ArgTy) (dfn : Option InstanceDefM)
    (op : OperandM) (ms : MarshalState) : Except Bug MarshalState :=
  match op.val with
  | .pair a b =>
    if type_is_fat_ptr op.ty then
      let ms :=
        if ms.nextIdx = 0 then
          match dfn with
          | some (.virtualIdx i) => { ms with llfn := some (get_vtable_fn b i) }
          | _ => ms
        else ms
      match trans_argument_slot fnArgs ⟨.imm a, .err⟩ ms with
      | .error e => .error e
      | .ok ms => trans_argument_slot fnArgs ⟨.imm b, .err⟩ ms
    else trans_argument_slot fnArgs op ms
  | _ => trans_argument_slot fnArgs op ms

/-- Modelled from the spec: `base::load_fat_ptr` — loading a fat pointer from
memory yields its two word components. -/
def load_fat_ptr_m (m : Vl) : Except Bug (Vl × Vl) :=
  match m with
  | .agg (a :: b :: _) => .ok (a, b)
  | _ => .error .fieldOutOfRange

/-- The `Ref` arm of `trans_arguments_untupled`: walk the fields of a
memory-backed tuple, forming each field pointer (fat-pointer fields are loaded
into pairs, others stay by-ref so `trans_argument` loads them if it needs to). -/
def untupled_ref_loop (fnArgs : List ArgTy) (dfn : Option InstanceDefM)
    (m : Vl) (align : Alignment) :
    List MTy → Nat → MarshalState → Except Bug MarshalState
  | [], _, ms => .ok ms
  | t :: rest, n, ms =>
    match m.field n with
    | .error e => .error e
    | .ok fieldC =>
      let opE : Except Bug OperandM :=
        if type_is_fat_ptr t then
          match load_fat_ptr_m fieldC with
          | .error e => .error e
          | .ok (a, b) => .ok ⟨.pair a b, t⟩
        else .ok ⟨.ref fieldC align, t⟩
      match opE with
      | .error e => .error e
      | .ok op =>
        match trans_argument fnArgs dfn op ms with
        | .error e => .error e
        | .ok ms => untupled_ref_loop fnArgs dfn m align rest (n + 1) ms

/-- The `Immediate` arm of `trans_arguments_untupled`: extract each field of the
immediate aggregate, truncating bool fields that are not already `i1`. -/
def untupled_imm_loop (fnArgs : List ArgTy) (dfn : Option InstanceDefM) (v : Vl) :
    List MTy → Nat → MarshalState → Except Bug MarshalState
  | [], _, ms => .ok ms
  | t :: rest, n, ms =>
    match v.field n with
    | .error e => .error e
    | .ok elem0 =>
      let elem := if t.isBool && !elem0.isI1 then truncToI1 elem0 else elem0
      match trans_argument fnArgs dfn ⟨.imm elem, t⟩ ms with
      | .error e => .error e
      | .ok ms => untupled_imm_loop fnArgs dfn v rest (n + 1) ms

/-- The `Pair` arm of `trans_arguments_untupled`: the two elements are indexed by
field number (an index past the second is a panicking array access), truncating
bool fields that are not already `i1`. -/
def untupled_pair_loop (fnArgs : List ArgTy) (dfn : Option InstanceDefM) (a b : Vl) :
    List MTy → Nat → MarshalState → Except Bug MarshalState
  | [], _, ms => .ok ms
  | t :: rest, n, ms =>
    match [a, b][n]? with
    | none => .error .indexOutOfRange
    | some elem0 =>
      let elem := if t.isBool && !elem0.isI1 then truncToI1 elem0 else elem0
      match trans_argument fnArgs dfn ⟨.imm elem, t⟩ ms with
      | .error e => .error e
      | .ok ms => untupled_pair_loop fnArgs dfn a b rest (n + 1) ms

/-- `trans_arguments_untupled`: lower the trailing tuple argument of a rust-call
function, decomposing whichever of the three representations holds it (the
`Immediate` arm's univariant-layout check always passes for a tuple type and is
subsumed by the type match). -/
def trans_arguments_untupled (fnArgs : List ArgTy) (dfn : Option InstanceDefM)
    (tuple : OperandM) (ms : MarshalState) : Except Bug MarshalState :=
  match tuple.ty with
  | .tup tys =>
    match tuple.val with
    | .ref m align => untupled_ref_loop fnArgs dfn m align tys 0 ms
    | .imm v => untupled_imm_loop fnArgs dfn v tys 0 ms
    | .pair a b => untupled_pair_loop fnArgs dfn a b tys 0 ms
  | _ => .error .badUntupleArg

/-- Modelled from the spec: "as if each field had been passed as a separate
ordinary argument" — each field value presented as an ordinary immediate operand
(a boolean already truncated to the narrow passing width) and fed through the
per-argument marshaling. -/
def per_field_ordinary (fnArgs : List ArgTy) (dfn : Option InstanceDefM) :
    List (MTy × Vl) → MarshalState → Except Bug MarshalState
  | [], ms => .ok ms
  | (t, v) :: rest, ms =>
    match trans_argument fnArgs dfn ⟨.imm (if t.isBool then truncToI1 v else v), t⟩ ms with
    | .error e => .error e
    | .ok ms => per_field_ordinary fnArgs dfn rest ms

/-- Well-formedness of one tuple field for the representation-equivalence
statement: a bool field is held wide (`i8`, value below 2, the invariant the
source's `load_range_assert 0 2` expresses), and a non-bool scalar field is any
scalar that is not an `i1`. -/
def fieldWF : MTy → Vl → Bool
  | .bool, .scalar v w => decide (w = 8) && decide (v < 2)
  | .scalarTy, .scalar _ w => decide (w ≠ 1)
  | _, _ => false

/-! ### Concrete states used to evaluate the definitions -/

/-- A function-lowering context with no funclets, an identity block map and empty
caches. -/
def baseState : FnState where
  blocks := fun b => b
  funcletOf := fun _ => none
  funclets := fun _ => none
  landingPads := fun _ => none
  isCleanup := fun _ => false
  msvc := false
  checkOverflow := true
  personalitySlot := none
  unreachableBlock := none
  nextBlock := 100
  nextVal := 40
  created := []

/-- Like `baseState`, but MIR block 1 lies in funclet region 7 (every other block
is outside any funclet): a normal edge targeting block 1 jumps into cleanup. -/
def intoCleanupState : FnState :=
  { baseState with funcletOf := fun b => if b = 1 then some 7 else none }

/-- `baseState` with overflow checking disabled. -/
def noOverflowChecksState : FnState :=
  { baseState with checkOverflow := false }

/-- The state `landing_pad_to baseState 3` produces: one `"cleanup"` block (handle
100) created, the personality slot allocated, and the pad cached for target 3. -/
def c6CachedState : FnState :=
  { baseState with
      nextBlock := 101, created := [(100, BlockName.cleanup)],
      personalitySlot := some 40, nextVal := 41,
      landingPads := fun t => if t = 3 then some 100 else none }

/-- The state the failing-assert lowering of `assertWarnOut` leaves behind: the
`"panic"` block (handle 100) was created. -/
def panicBlockState : FnState :=
  { baseState with nextBlock := 101, created := [(100, BlockName.panicName)] }

/-- The outcome of lowering `assert(len=3 > index=7)` with both operands constant
in `baseState`: a conditional branch guarding a fresh panic block, the advisory
warning, and a call to the bounds-check panic entry point. -/
def assertWarnOut : AssertOut where
  successTarget := none
  earlyBranch := none
  condBr := some (1, 100)
  panicBlock := some 100
  warning := true
  call := some (.panicBoundsCheckFn, [.constV 7, .constV 3])

/-- The outcome of lowering an assert whose success is statically known in
`baseState`: just the branch to the success target. -/
def assertSuccessOut : AssertOut where
  successTarget := some 1
  earlyBranch := some (.br 1)
  condBr := none
  panicBlock := none
  warning := false
  call := none

/-- A `make_return_dest` context whose locals are all unassigned operand
temporaries. -/
def rdBaseState : RdState where
  locals := fun _ => .operandNone
  transLvalueAddr := fun _ => (0, .abiAligned)
  nextTmp := 10

/-- Field types of a two-field example tuple: a bool and an ordinary scalar. -/
def wTys : List MTy := [.bool, .scalarTy]

/-- Field values of the example tuple: the bool held wide (`i8` value 1), the
scalar a 32-bit value 5. -/
def wVals : List Vl := [.scalar 1 8, .scalar 5 32]

/-- ABI slots of the example callee: a direct bool slot and an indirect slot. -/
def wArgs : List ArgTy := [⟨.direct, none, none, true⟩, ⟨.indirect, none, none, false⟩]

/-- An empty marshaling state at slot index 0. -/
def wMs : MarshalState := ⟨[], 0, none⟩

/-! ### Shared helper lemmas -/

/-- On success, `funclet_br` leaves the created-block list unchanged, except that
resolving an edge into a cleanup region may have materialized the target's
landing pad (one `"cleanup"` block). -/
theorem funclet_br_created (st : FnState) (fb pad : Option Nat) (target : Nat)
    (instr : BranchInstr) (st' : FnState)
    (h : funclet_br st fb pad target = .ok (instr, st')) :
    st'.created = st.created ∨ ∃ b, st'.created = (b, BlockName.cleanup) :: st.created := by
  unfold funclet_br lltarget landing_pad_to landing_pad_uncached new_block
    get_personality_slot at h
  rcases fb with _ | f <;> rcases htf : st.funcletOf target with _ | tf <;>
    simp only [htf] at h
  · cases h
    exact Or.inl rfl
  · rcases hlp : st.landingPads target with _ | b <;> simp only [hlp] at h
    · rcases hmsvc : st.msvc <;> simp only [hmsvc] at h
      · rcases hps : st.personalitySlot with _ | slot <;> simp only [hps] at h <;>
          (cases h; exact Or.inr ⟨st.nextBlock, rfl⟩)
      · cases h
    · cases h
      exact Or.inl rfl
  · cases h
  · rcases hcond : (f = tf || !st.msvc) <;> simp only [hcond] at h
    · rcases hlp : st.landingPads target with _ | b <;> simp only [hlp] at h
      · rcases hmsvc : st.msvc <;> simp only [hmsvc] at h
        · rw [hmsvc] at hcond
          simp at hcond
        · cases h
      · rcases pad with _ | p
        · cases h
        · cases h
          exact Or.inl rfl
    · cases h
      exact Or.inl rfl

/-! ### C4: same-region / no-region / table-based branches -/

/-- C4 (counterexample): under the table-based (non-MSVC) discipline, a branch
from a block outside any funclet to a block inside funclet region 7 does *not*
emit an ordinary branch to the target's realized block: it materializes the
target's landing pad (a fresh `"cleanup"` block, handle 100) and branches there,
even though `intoCleanupState.blocks 1 = 1`. -/
theorem branch_table_based_into_cleanup_cex :
    (funclet_br intoCleanupState none none 1).map (fun p => (p.1, p.2.created)) =
      .ok (.br 100, [(100, BlockName.cleanup)]) ∧
    intoCleanupState.msvc = false ∧ intoCleanupState.blocks 1 = 1 ∧ (100 : Nat) ≠ 1 := by
  refine ⟨rfl, rfl, rfl, by decide⟩

/-- C4 (amended): for every branch whose source and target blocks are in the same
funclet region, or where neither is in any funclet region, or where both are in
funclet regions and the table-based (non-MSVC) discipline is active, the branch
helpers emit an ordinary branch directly to the target's realized block, create
no trampoline, materialize no landing pad, and leave the state unchanged. -/
theorem funclet_br_ordinary (st : FnState) (funclet_bb pad : Option Nat)
    (bb target : Nat)
    (h : (funclet_bb = none ∧ st.funcletOf target = none) ∨
         (∃ f g, funclet_bb = some f ∧ st.funcletOf target = some g ∧
                 (f = g ∨ st.msvc = false))) :
    funclet_br st funclet_bb pad target = .ok (.br (st.blocks target), st) ∧
    llblock st bb funclet_bb pad target = .ok (st.blocks target, st) := by
  rcases h with ⟨h1, h2⟩ | ⟨f, g, h1, h2, h3⟩
  · subst h1
    simp [funclet_br, llblock, lltarget, h2]
  · subst h1
    have hc : (f = g || !st.msvc) = true := by
      rcases h3 with h3 | h3 <;> simp [h3]
    simp [funclet_br, llblock, lltarget, h2, hc]

/-- C4 (witness): a branch between two blocks outside any funclet region in
`baseState` is an ordinary branch to the realized block 3. -/
theorem funclet_br_ordinary_w :
    funclet_br baseState none none 3 = .ok (.br 3, baseState) ∧
    llblock baseState 0 none none 3 = .ok (3, baseState) :=
  funclet_br_ordinary baseState none none 0 3 (Or.inl ⟨rfl, rfl⟩)

/-! ### C5: jumping out of a cleanup funclet is a fatal bug -/

/-- C5: a branch whose source block lies in a funclet region and whose target lies
outside every funclet region aborts with the "jump out of cleanup?" compiler bug in
both branch helpers; no instruction is emitted and no state survives. -/
theorem funclet_br_jump_out_of_cleanup (st : FnState) (f : Nat) (pad : Option Nat)
    (bb target : Nat) (h : st.funcletOf target = none) :
    funclet_br st (some f) pad target = .error .jumpOutOfCleanup ∧
    llblock st bb (some f) pad target = .error .jumpOutOfCleanup := by
  simp [funclet_br, llblock, lltarget, h]

/-- C5 (witness): from a block in funclet region 2 to plain block 7 of
`baseState`. -/
theorem funclet_br_jump_out_of_cleanup_w :
    funclet_br baseState (some 2) none 7 = .error .jumpOutOfCleanup ∧
    llblock baseState 0 (some 2) none 7 = .error .jumpOutOfCleanup :=
  funclet_br_jump_out_of_cleanup baseState 2 none 0 7 rfl

/-! ### C6: at most one landing pad per target -/

/-- C6: `landing_pad_to` is a lookup-or-insert keyed by the target block: whenever
it succeeds, the produced pad is stored in the per-target cache, and asking again
for the same target returns exactly the cached block with the state unchanged —
so at most one landing pad is ever constructed per target. -/
theorem landing_pad_to_cached (st : FnState) (t b : Nat) (st' : FnState)
    (h : landing_pad_to st t = .ok (b, st')) :
    st'.landingPads t = some b ∧ landing_pad_to st' t = .ok (b, st') := by
  unfold landing_pad_to at h
  rcases hlp : st.landingPads t with _ | cached <;> simp only [hlp] at h
  · rcases hun : landing_pad_uncached st (st.blocks t) with e | ⟨lp, st2⟩ <;>
      simp only [hun] at h
    · cases h
    · injection h with h1
      injection h1 with hb hst
      subst hb
      subst hst
      constructor
      · simp
      · unfold landing_pad_to
        simp
  · cases h
    exact ⟨hlp, by unfold landing_pad_to; simp [hlp]⟩

/-- C6 (witness): the first request for target 3 in `baseState` materializes pad
100 and caches it (`c6CachedState`); the second request returns the cached pad
unchanged. -/
theorem landing_pad_to_cached_w :
    c6CachedState.landingPads 3 = some 100 ∧
    landing_pad_to c6CachedState 3 = .ok (100, c6CachedState) :=
  landing_pad_to_cached baseState 3 100 c6CachedState rfl

/-! ### C7: ignored / indirect returns -/

/-- C7: for a Return whose ABI return slot is ignored or passed indirectly,
lowering emits a void return immediately, and the result is independent of the
return-pointer local — the destination local is never read. -/
theorem return_ignored_void (retTy : ArgTy) (l l' : LocalRefM)
    (h : retTy.is_ignore = true ∨ retTy.is_indirect = true) :
    trans_return retTy l = .ok RetOut.retVoid ∧
    trans_return retTy l = trans_return retTy l' := by
  rcases h with h | h <;> simp [trans_return, h]

/-- C7 (witness): an ignored return emits `ret_void` whether the return local is
an unassigned operand or a packed memory slot. -/
theorem return_ignored_void_w :
    trans_return ⟨.ignore, none, none, false⟩ (.operand none) = .ok RetOut.retVoid ∧
    trans_return ⟨.ignore, none, none, false⟩ (.operand none) =
      trans_return ⟨.ignore, none, none, false⟩ (.lvalue (.scalar 0 8) .packed .scalarTy) :=
  return_ignored_void ⟨.ignore, none, none, false⟩ (.operand none)
    (.lvalue (.scalar 0 8) .packed .scalarTy) (Or.inl rfl)

/-! ### C8: packed memory behind a cast return is a fatal assertion -/

/-- C8: for a Return whose ABI slot requires a bit-cast and whose return operand
is already memory-backed, a packed (non-ABI-aligned) memory operand trips the
"return pointer is unaligned!" assertion: lowering aborts instead of loading. -/
theorem return_cast_packed_bug (retTy : ArgTy) (l : LocalRefM) (castTy : Nat)
    (op : OperandM) (m : Vl)
    (hig : retTy.is_ignore = false) (hind : retTy.is_indirect = false)
    (hcast : retTy.cast = some castTy)
    (hop : return_operand l = .ok op) (hval : op.val = .ref m .packed) :
    trans_return retTy l = .error .returnPointerUnaligned := by
  simp [trans_return, hig, hind, hcast, hop, hval]

/-- C8 (witness): a direct return with a cast type whose return local is a packed
memory-backed lvalue aborts. -/
theorem return_cast_packed_bug_w :
    trans_return ⟨.direct, some 9, none, false⟩ (.lvalue (.scalar 3 8) .packed .scalarTy) =
      .error .returnPointerUnaligned :=
  return_cast_packed_bug ⟨.direct, some 9, none, false⟩
    (.lvalue (.scalar 3 8) .packed .scalarTy) 9
    ⟨.ref (.scalar 3 8) .packed, .scalarTy⟩ (.scalar 3 8) rfl rfl rfl rfl rfl

/-! ### C10: intrinsics never get a direct-operand destination -/

/-- C10: with `is_intrinsic = true`, `make_return_dest` never resolves to a
direct-operand capture, so the "Cannot use direct operand with an intrinsic call"
branch of the intrinsic result routing is unreachable. -/
theorem make_return_dest_intrinsic_no_direct (st : RdState) (dest : MLvalue)
    (fn_ret_ty : ArgTy) (llargs : List Nat) (rd : ReturnDest) (args' : List Nat)
    (st' : RdState)
    (h : make_return_dest st dest fn_ret_ty llargs true = .ok (rd, args', st')) :
    (∀ i, rd ≠ .directOperand i) ∧
    intrinsic_dest_route fn_ret_ty rd args' ≠ .error .directOperandWithIntrinsic := by
  rcases fn_ret_ty with ⟨kind, cast, pad, tyb⟩
  cases kind <;>
    simp only [make_return_dest, ArgTy.is_ignore, ArgTy.is_indirect, if_true, if_false,
      Bool.false_eq_true, reduceIte] at h
  · -- direct return
    rcases dest with index | p
    · rcases hl : st.locals index with ⟨llval, align⟩ | _ | _ <;> simp only [hl] at h <;>
        cases h <;>
        simp [intrinsic_dest_route, ArgTy.is_indirect]
    · cases h
      simp [intrinsic_dest_route, ArgTy.is_indirect]
  · -- indirect return: the route consumes the pushed out-pointer, never `rd`
    rcases dest with index | p
    · rcases hl : st.locals index with ⟨llval, align⟩ | _ | _ <;> simp only [hl] at h
      · rcases align <;> simp only [] at h <;> cases h <;>
          (simp only [intrinsic_dest_route, ArgTy.is_indirect]
           exact ⟨fun i => by simp, by cases llargs <;> simp⟩)
      · cases h
        simp only [intrinsic_dest_route, ArgTy.is_indirect]
        exact ⟨fun i => by simp, by cases llargs <;> simp⟩
      · cases h
    · rcases halign : (st.transLvalueAddr p).2 with _ | _
      all_goals simp only [halign] at h
      · cases h
        simp only [intrinsic_dest_route, ArgTy.is_indirect]
        exact ⟨fun i => by simp, by cases llargs <;> simp⟩
      · cases h
  · -- ignored return
    cases h
    simp [intrinsic_dest_route, ArgTy.is_indirect, ReturnDest.nothing]

/-- C10 (witness): an intrinsic call whose destination is an unassigned operand
local resolves to an indirect-operand capture through a fresh scratch slot. -/
theorem make_return_dest_intrinsic_no_direct_w :
    ReturnDest.indirectOperand 10 2 ≠ .directOperand 5 ∧
    intrinsic_dest_route ⟨.direct, none, none, false⟩ (.indirectOperand 10 2) [] ≠
      .error .directOperandWithIntrinsic :=
  have h := make_return_dest_intrinsic_no_direct rdBaseState (.localL 2)
    ⟨.direct, none, none, false⟩ [] (.indirectOperand 10 2) []
    { rdBaseState with nextTmp := 11 } rfl
  ⟨h.1 5, h.2⟩

/-! ### C3: the negation-overflow carve-out -/

/-- C3: when overflow checking is disabled and the assert message is the
negation-overflow check, an Assert with a statically known condition is treated
as statically satisfied: the lowering is exactly the funclet-aware branch to the
success target — no panic block, no runtime call, no warning. -/
theorem assert_neg_overflow_carveout (st : FnState) (bb : Nat) (cond : CVal)
    (n : Nat) (expected : Bool) (target : Nat) (cleanup : Option Nat)
    (hco : st.checkOverflow = false) (hstatic : cond = .constV n) :
    trans_assert st bb cond expected (.math (.overflow .neg)) target cleanup =
      (funclet_br st (st.funcletOf bb) (cleanup_pad_of st (st.funcletOf bb)) target).map
        (fun p => ({ successTarget := some target, earlyBranch := some p.1,
                     condBr := none, panicBlock := none, warning := false,
                     call := none }, p.2)) := by
  have hcc : assert_const_cond st.checkOverflow cond expected (.math (.overflow .neg)) =
      some expected := by
    simp [assert_const_cond, hco]
  rcases hfb : funclet_br st (st.funcletOf bb) (cleanup_pad_of st (st.funcletOf bb)) target
    with e | ⟨instr, st'⟩ <;>
    simp [trans_assert, hcc, hfb, Except.map]

/-- C3 (witness): a constant-false negation-overflow assert with overflow checks
off branches straight to target 1. -/
theorem assert_neg_overflow_carveout_w :
    trans_assert noOverflowChecksState 0 (.constV 0) true (.math (.overflow .neg)) 1 none =
      (funclet_br noOverflowChecksState none none 1).map
        (fun p => ({ successTarget := some 1, earlyBranch := some p.1,
                     condBr := none, panicBlock := none, warning := false,
                     call := none }, p.2)) :=
  assert_neg_overflow_carveout noOverflowChecksState 0 (.constV 0) 0 true 1 none rfl rfl

/-! ### C2: statically satisfied asserts -/

/-- C2 (counterexample): an Assert whose condition is constant-`true` with
`expected = true` does *not* always create zero new blocks: when its success
target (block 1) lies in a funclet region and the source does not, the
funclet-aware branch materializes the target's landing pad — lowering starts from
an empty created-block list and ends with one fresh `"cleanup"` block. -/
theorem assert_known_success_cex :
    (trans_assert intoCleanupState 0 (.constV 1) true (.boundsCheck (.constV 0) (.constV 0))
        1 none).map (fun p => (p.1.successTarget, p.1.panicBlock, p.2.created)) =
      .ok (some 1, none, [(100, BlockName.cleanup)]) ∧
    intoCleanupState.created = [] :=
  ⟨rfl, rfl⟩

/-- C2 (amended): for every Assert whose condition is a compile-time constant
equal to the expected truth value, lowering emits only the funclet-aware branch to
the success target — no panic block, no runtime panic call, no warning — and the
only block it can create is the success target's landing pad (one `"cleanup"`
block), materialized when that edge enters a cleanup region. -/
theorem assert_known_success_no_panic (st st' : FnState) (bb : Nat) (cond : CVal)
    (expected : Bool) (msg : AssertMessageM) (target : Nat) (cleanup : Option Nat)
    (out : AssertOut)
    (hconst : (const_to_opt_u128 cond).map (fun c => decide (c = 1)) = some expected)
    (hrun : trans_assert st bb cond expected msg target cleanup = .ok (out, st')) :
    out.warning = false ∧ out.call = none ∧ out.panicBlock = none ∧
    out.successTarget = some target ∧
    (st'.created = st.created ∨ ∃ b, st'.created = (b, BlockName.cleanup) :: st.created) := by
  have hcc : assert_const_cond st.checkOverflow cond expected msg = some expected := by
    unfold assert_const_cond
    split
    · split
      · rfl
      · exact hconst
    · exact hconst
  unfold trans_assert at hrun
  rw [hcc] at hrun
  simp only [if_pos rfl] at hrun
  rcases hfb : funclet_br st (st.funcletOf bb) (cleanup_pad_of st (st.funcletOf bb)) target
    with e | ⟨instr, st2⟩ <;> rw [hfb] at hrun
  · cases hrun
  · injection hrun with h1
    injection h1 with hout hst
    subst hout
    subst hst
    exact ⟨rfl, rfl, rfl, rfl, funclet_br_created st _ _ target instr st2 hfb⟩

/-- C2 (witness): a constant-true bounds-check assert in `baseState` takes the
early branch, creating nothing. -/
theorem assert_known_success_no_panic_w :
    assertSuccessOut.warning = false ∧ assertSuccessOut.call = none ∧
    assertSuccessOut.panicBlock = none ∧ assertSuccessOut.successTarget = some 1 :=
  have h := assert_known_success_no_panic baseState baseState 0 (.constV 1) true
    (.boundsCheck (.constV 3) (.constV 7)) 1 none assertSuccessOut rfl rfl
  ⟨h.1, h.2.1, h.2.2.1, h.2.2.2.1⟩

/-! ### C1: the advisory "will panic at run-time" warning -/

/-- C1 (counterexample): the advisory warning is *not* confined to bounds-check
asserts: a statically failing arithmetic-overflow assert (message
`Math(Overflow(Add))`, constant-false condition, expected `true`) also emits it,
while calling the plain panic entry point. -/
theorem assert_warning_math_cex :
    (trans_assert baseState 0 (.constV 0) true (.math (.overflow .add)) 1 none).map
        (fun p => (p.1.warning, p.1.call)) =
      .ok (true, some (.panicFn, [])) :=
  rfl

/-- C1 (amended): the advisory warning is emitted exactly when the (possibly
corrected) condition is statically known to fail *and* a constant error payload
exists — a bounds check with both operands statically known, or any math
(arithmetic) assert message; generator-resume messages never warn. -/
theorem assert_warning_iff (st st' : FnState) (bb : Nat) (cond : CVal)
    (expected : Bool) (msg : AssertMessageM) (target : Nat) (cleanup : Option Nat)
    (out : AssertOut)
    (hrun : trans_assert st bb cond expected msg target cleanup = .ok (out, st')) :
    out.warning = true ↔
      (assert_const_cond st.checkOverflow cond expected msg = some (!expected) ∧
       (assert_const_err msg).isSome = true) := by
  unfold trans_assert at hrun
  by_cases hcc : assert_const_cond st.checkOverflow cond expected msg = some expected
  · rw [hcc] at hrun
    simp only [if_pos rfl] at hrun
    rcases hfb : funclet_br st (st.funcletOf bb) (cleanup_pad_of st (st.funcletOf bb)) target
      with e | ⟨instr, st2⟩ <;> rw [hfb] at hrun
    · cases hrun
    · injection hrun with h1
      injection h1 with hout hst
      subst hout
      constructor
      · intro hfalse
        cases hfalse
      · rintro ⟨h1, _⟩
        rw [hcc] at h1
        injection h1 with hb
        simp at hb
  · rw [if_neg hcc] at hrun
    rcases hlb : llblock st bb (st.funcletOf bb) (cleanup_pad_of st (st.funcletOf bb)) target
      with e | ⟨lltgt, st2⟩ <;> rw [hlb] at hrun
    · cases hrun
    · rcases hdc : do_call_no_dest
          ({ st2 with nextBlock := st2.nextBlock + 1,
                      created := (st2.nextBlock, BlockName.panicName) :: st2.created })
          bb (st.funcletOf bb) (cleanup_pad_of st (st.funcletOf bb)) cleanup
        with e | ⟨co, st3⟩ <;>
        simp only [new_block, hdc] at hrun
      · cases hrun
      · injection hrun with h1
        injection h1 with hout hst
        subst hout
        by_cases hw : assert_const_cond st.checkOverflow cond expected msg = some (!expected)
        · simp [hw]
        · simp [hw]

/-- C1 (witness): the statically failing bounds check `len = 3, index = 7` in
`baseState` emits the warning, creates the panic block (handle 100), branches to
it on the failing polarity, and still calls the bounds-check panic entry point
with the constant operands. -/
theorem assert_warning_iff_w :
    (assertWarnOut.warning = true ↔
      (assert_const_cond baseState.checkOverflow (.constV 0) true
          (.boundsCheck (.constV 3) (.constV 7)) = some (!true) ∧
       (assert_const_err (.boundsCheck (.constV 3) (.constV 7))).isSome = true)) :=
  assert_warning_iff baseState panicBlockState 0 (.constV 0) true
    (.boundsCheck (.constV 3) (.constV 7)) 1 none assertWarnOut rfl

/-! ### C9: tuple-splat representation equivalence -/

/-- Successful slot marshaling consumes exactly one ABI slot. -/
theorem trans_argument_slot_nextIdx (fnArgs : List ArgTy) (op : OperandM)
    (ms ms' : MarshalState) (h : trans_argument_slot fnArgs op ms = .ok ms') :
    ms'.nextIdx = ms.nextIdx + 1 := by
  unfold trans_argument_slot at h
  rcases harg : fnArgs[ms.nextIdx]? with _ | arg <;> rw [harg] at h
  · cases h
  · simp only [] at h
    rcases arg with ⟨kind, cast, pad, tyb⟩
    rcases pad with _ | padTy <;>
      rcases hval : op.val with v | ⟨a, b⟩ | ⟨m, al⟩ <;>
      simp only [hval] at h <;>
      split at h <;>
      first
        | (cases h; rfl)
        | (split at h <;> first | (cases h; rfl) | (split at h <;> (cases h; rfl)))

/-- The per-field elements the `Immediate`/`Pair` untupling arms feed to
`trans_argument` agree with the spec-side "ordinary argument" presentation on
well-formed fields. -/
theorem untupled_elem_eq (t : MTy) (v : Vl) (hwf : fieldWF t v = true) :
    (if t.isBool && !v.isI1 then truncToI1 v else v)
      = (if t.isBool then truncToI1 v else v) := by
  cases t <;> cases v <;> simp [fieldWF] at hwf <;>
    simp [MTy.isBool, Vl.isI1, truncToI1]
  omega

/-- Marshaling one well-formed tuple field by reference (what the `Ref` untupling
arm does) equals marshaling it as the spec-side ordinary immediate operand,
provided the consumed ABI slot's bool classification matches the field type. -/
theorem field_marshal_step (fnArgs : List ArgTy) (dfn : Option InstanceDefM)
    (t : MTy) (v : Vl) (align : Alignment) (ms : MarshalState)
    (hwf : fieldWF t v = true)
    (hslot : ∀ arg, fnArgs[ms.nextIdx]? = some arg → arg.tyIsBool = t.isBool) :
    trans_argument fnArgs dfn ⟨.ref v align, t⟩ ms
      = trans_argument fnArgs dfn ⟨.imm (if t.isBool then truncToI1 v else v), t⟩ ms := by
  cases t <;> rcases v with ⟨c, w⟩ | es <;> simp [fieldWF] at hwf
  · -- bool field, wide scalar
    obtain ⟨hw, hc⟩ := hwf
    subst hw
    show trans_argument_slot fnArgs ⟨.ref (.scalar c 8) align, .bool⟩ ms
      = trans_argument_slot fnArgs ⟨.imm _, .bool⟩ ms
    unfold trans_argument_slot
    rcases harg : fnArgs[ms.nextIdx]? with _ | arg
    · rfl
    · have hb : arg.tyIsBool = true := hslot arg harg
      rcases arg with ⟨kind, cast, pad, tyb⟩
      simp only [] at hb
      subst hb
      cases kind <;> rcases cast with _ | castTy <;> rcases pad with _ | padTy <;>
        simp [ArgTy.is_ignore, ArgTy.is_indirect, load_for_arg, pack_if_pair,
          store_operand_content, fromImmediate, truncToI1, MTy.isBool,
          Nat.mod_eq_of_lt hc]
  · -- ordinary scalar field
    show trans_argument_slot fnArgs ⟨.ref (.scalar c w) align, .scalarTy⟩ ms
      = trans_argument_slot fnArgs ⟨.imm _, .scalarTy⟩ ms
    unfold trans_argument_slot
    rcases harg : fnArgs[ms.nextIdx]? with _ | arg
    · rfl
    · have hb : arg.tyIsBool = false := hslot arg harg
      rcases arg with ⟨kind, cast, pad, tyb⟩
      simp only [] at hb
      subst hb
      cases kind <;> rcases cast with _ | castTy <;> rcases pad with _ | padTy <;>
        simp [ArgTy.is_ignore, ArgTy.is_indirect, load_for_arg, pack_if_pair,
          store_operand_content, fromImmediate, truncToI1, MTy.isBool, hwf]

/-- `trans_argument` on an immediate operand is slot marshaling. -/
theorem trans_argument_imm_eq_slot (fnArgs : List ArgTy) (dfn : Option InstanceDefM)
    (v : Vl) (t : MTy) (ms : MarshalState) :
    trans_argument fnArgs dfn ⟨.imm v, t⟩ ms = trans_argument_slot fnArgs ⟨.imm v, t⟩ ms :=
  rfl

/-- The `Ref` untupling arm produces exactly the spec-side per-field ordinary
marshaling, for well-formed non-fat fields backed by the tuple's memory. -/
theorem untupled_ref_loop_spec (fnArgs : List ArgTy) (dfn : Option InstanceDefM)
    (align : Alignment) (vals : List Vl) (tys : List MTy) :
    ∀ (n : Nat) (ms : MarshalState),
    (∀ i t v, tys[i]? = some t → vals[n + i]? = some v → fieldWF t v = true) →
    (∀ i t arg, tys[i]? = some t → fnArgs[ms.nextIdx + i]? = some arg →
        arg.tyIsBool = t.isBool) →
    n + tys.length ≤ vals.length →
    untupled_ref_loop fnArgs dfn (.agg vals) align tys n ms
      = per_field_ordinary fnArgs dfn (tys.zip (vals.drop n)) ms := by
  induction tys with
  | nil => intro n ms _ _ _; rfl
  | cons t rest ih =>
    intro n ms hwf hslot hlen
    have hn : n < vals.length := by
      simp only [List.length_cons] at hlen
      omega
    have hv : vals[n]? = some vals[n] := List.getElem?_eq_getElem hn
    have hwf0 : fieldWF t vals[n] = true := by
      refine hwf 0 t vals[n] (by simp) ?_
      simpa using hv
    have hnotfat : type_is_fat_ptr t = false := by
      cases t <;> first
        | rfl
        | (rcases hvv : vals[n] with _ | _ <;> rw [hvv] at hwf0 <;>
            simp [fieldWF] at hwf0)
    have hfield : Vl.field (.agg vals) n = .ok vals[n] := by
      simp [Vl.field, hv]
    have hdrop : vals.drop n = vals[n] :: vals.drop (n + 1) :=
      List.drop_eq_getElem_cons hn
    rw [hdrop]
    simp only [untupled_ref_loop, per_field_ordinary, List.zip_cons_cons, hfield, hnotfat,
      Bool.false_eq_true, if_false, reduceIte]
    rw [field_marshal_step fnArgs dfn t vals[n] align ms hwf0
      (fun arg ha => hslot 0 t arg (by simp) (by simpa using ha))]
    rcases hta : trans_argument fnArgs dfn
        ⟨.imm (if t.isBool then truncToI1 vals[n] else vals[n]), t⟩ ms with e | ms'
    · rfl
    · rw [trans_argument_imm_eq_slot] at hta
      have hidx : ms'.nextIdx = ms.nextIdx + 1 :=
        trans_argument_slot_nextIdx fnArgs _ ms ms' hta
      refine ih (n + 1) ms' ?_ ?_ ?_
      · intro i ti vi hti hvi
        refine hwf (i + 1) ti vi (by simpa using hti) ?_
        have : n + (i + 1) = n + 1 + i := by omega
        rw [this]
        exact hvi
      · intro i ti arg hti harg
        refine hslot (i + 1) ti arg (by simpa using hti) ?_
        have : ms.nextIdx + (i + 1) = ms'.nextIdx + i := by omega
        rw [this]
        exact harg
      · simp only [List.length_cons] at hlen
        omega

/-- The `Immediate` untupling arm produces exactly the spec-side per-field
ordinary marshaling, for well-formed fields of an immediate aggregate. -/
theorem untupled_imm_loop_spec (fnArgs : List ArgTy) (dfn : Option InstanceDefM)
    (vals : List Vl) (tys : List MTy) :
    ∀ (n : Nat) (ms : MarshalState),
    (∀ i t v, tys[i]? = some t → vals[n + i]? = some v → fieldWF t v = true) →
    n + tys.length ≤ vals.length →
    untupled_imm_loop fnArgs dfn (.agg vals) tys n ms
      = per_field_ordinary fnArgs dfn (tys.zip (vals.drop n)) ms := by
  induction tys with
  | nil => intro n ms _ _; rfl
  | cons t rest ih =>
    intro n ms hwf hlen
    have hn : n < vals.length := by
      simp only [List.length_cons] at hlen
      omega
    have hv : vals[n]? = some vals[n] := List.getElem?_eq_getElem hn
    have hwf0 : fieldWF t vals[n] = true := by
      refine hwf 0 t vals[n] (by simp) ?_
      simpa using hv
    have hfield : Vl.field (.agg vals) n = .ok vals[n] := by
      simp [Vl.field, hv]
    have hdrop : vals.drop n = vals[n] :: vals.drop (n + 1) :=
      List.drop_eq_getElem_cons hn
    rw [hdrop]
    simp only [untupled_imm_loop, per_field_ordinary, List.zip_cons_cons, hfield]
    rw [untupled_elem_eq t vals[n] hwf0]
    rcases hta : trans_argument fnArgs dfn
        ⟨.imm (if t.isBool then truncToI1 vals[n] else vals[n]), t⟩ ms with e | ms'
    · rfl
    · refine ih (n + 1) ms' ?_ ?_
      · intro i ti vi hti hvi
        refine hwf (i + 1) ti vi (by simpa using hti) ?_
        have : n + (i + 1) = n + 1 + i := by omega
        rw [this]
        exact hvi
      · simp only [List.length_cons] at hlen
        omega

/-- The `Pair` untupling arm agrees with the `Immediate` arm on the aggregate of
its two elements, as long as the field count stays within the pair. -/
theorem untupled_pair_loop_eq_imm (fnArgs : List ArgTy) (dfn : Option InstanceDefM)
    (a b : Vl) (tys : List MTy) :
    ∀ (n : Nat) (ms : MarshalState), n + tys.length ≤ 2 →
    untupled_pair_loop fnArgs dfn a b tys n ms
      = untupled_imm_loop fnArgs dfn (.agg [a, b]) tys n ms := by
  induction tys with
  | nil => intro n ms _; rfl
  | cons t rest ih =>
    intro n ms hlen
    have hn : n < 2 := by
      simp only [List.length_cons] at hlen
      omega
    have hv : ([a, b] : List Vl)[n]? = some ([a, b] : List Vl)[n] :=
      List.getElem?_eq_getElem (by simpa using hn)
    have hfield : Vl.field (.agg [a, b]) n = .ok ([a, b] : List Vl)[n] := by
      simp [Vl.field, hv]
    simp only [untupled_pair_loop, untupled_imm_loop, hfield, hv]
    rcases hta : trans_argument fnArgs dfn
        ⟨.imm (if t.isBool && !(([a, b] : List Vl)[n]).isI1
               then truncToI1 ([a, b] : List Vl)[n] else ([a, b] : List Vl)[n]), t⟩ ms
      with e | ms'
    · rfl
    · refine ih (n + 1) ms' ?_
      simp only [List.length_cons] at hlen
      omega

/-- C9: the trailing tuple argument of a rust-call function yields the same
per-field argument sequence in all three of its representations — memory-backed
reference, single immediate aggregate, and two-word pair — and that common
sequence is exactly what marshaling each field as a separate ordinary argument
produces (booleans truncated to the narrow passing width in every case).
Hypotheses: every field is a well-formed non-fat scalar (bools held wide with a
value below 2), the consumed ABI slots' bool classification matches the field
types, and the value list matches the field list (the pair form additionally
requires exactly two fields). -/
theorem untupled_representation_equiv (fnArgs : List ArgTy)
    (dfn : Option InstanceDefM) (tys : List MTy) (vals : List Vl)
    (align : Alignment) (ms : MarshalState)
    (hwf : ∀ (i : Nat) (t : MTy) (v : Vl),
        tys[i]? = some t → vals[i]? = some v → fieldWF t v = true)
    (hslot : ∀ (i : Nat) (t : MTy) (arg : ArgTy),
        tys[i]? = some t → fnArgs[ms.nextIdx + i]? = some arg →
        arg.tyIsBool = t.isBool)
    (hlen : tys.length = vals.length) :
    trans_arguments_untupled fnArgs dfn ⟨.ref (.agg vals) align, .tup tys⟩ ms
      = per_field_ordinary fnArgs dfn (tys.zip vals) ms ∧
    trans_arguments_untupled fnArgs dfn ⟨.imm (.agg vals), .tup tys⟩ ms
      = per_field_ordinary fnArgs dfn (tys.zip vals) ms ∧
    (∀ a b, vals = [a, b] →
      trans_arguments_untupled fnArgs dfn ⟨.pair a b, .tup tys⟩ ms
        = per_field_ordinary fnArgs dfn (tys.zip vals) ms) := by
  have hwf0 : ∀ (i : Nat) (t : MTy) (v : Vl),
      tys[i]? = some t → vals[0 + i]? = some v → fieldWF t v = true := by
    intro i t v ht hv
    exact hwf i t v ht (by simpa using hv)
  have hslot0 : ∀ (i : Nat) (t : MTy) (arg : ArgTy),
      tys[i]? = some t → fnArgs[ms.nextIdx + i]? = some arg →
      arg.tyIsBool = t.isBool := hslot
  have hlen0 : 0 + tys.length ≤ vals.length := by omega
  refine ⟨?_, ?_, ?_⟩
  · show untupled_ref_loop fnArgs dfn (.agg vals) align tys 0 ms = _
    rw [untupled_ref_loop_spec fnArgs dfn align vals tys 0 ms hwf0 hslot0 hlen0]
    rw [List.drop_zero]
  · show untupled_imm_loop fnArgs dfn (.agg vals) tys 0 ms = _
    rw [untupled_imm_loop_spec fnArgs dfn vals tys 0 ms hwf0 hlen0]
    rw [List.drop_zero]
  · intro a b hab
    show untupled_pair_loop fnArgs dfn a b tys 0 ms = _
    rw [untupled_pair_loop_eq_imm fnArgs dfn a b tys 0 ms (by rw [hab] at hlen0; simpa using hlen0)]
    rw [hab] at hwf0 hlen0 ⊢
    rw [untupled_imm_loop_spec fnArgs dfn [a, b] tys 0 ms hwf0 hlen0]
    rw [List.drop_zero]

/-- C9 (witness): a two-field tuple `(true : bool, 5 : i32)` against a callee
whose first slot is a direct bool and second slot is indirect produces the same
argument sequence from all three representations, equal to the per-field
ordinary marshaling. -/
theorem untupled_representation_equiv_w :
    trans_arguments_untupled wArgs none ⟨.ref (.agg wVals) .abiAligned, .tup wTys⟩ wMs
      = per_field_ordinary wArgs none (wTys.zip wVals) wMs ∧
    trans_arguments_untupled wArgs none ⟨.imm (.agg wVals), .tup wTys⟩ wMs
      = per_field_ordinary wArgs none (wTys.zip wVals) wMs ∧
    trans_arguments_untupled wArgs none ⟨.pair (.scalar 1 8) (.scalar 5 32), .tup wTys⟩ wMs
      = per_field_ordinary wArgs none (wTys.zip wVals) wMs := by
  have h := untupled_representation_equiv wArgs none wTys wVals .abiAligned wMs
    (by
      intro i t v ht hv
      rcases i with _ | _ | i <;>
        simp only [wTys, wVals, List.getElem?_cons_zero, List.getElem?_cons_succ,
          List.getElem?_nil, Option.some.injEq] at ht hv <;>
        first
          | (subst ht; subst hv; rfl)
          | cases ht)
    (by
      intro i t arg ht harg
      rcases i with _ | _ | i <;>
        simp only [wTys, wArgs, wMs, List.getElem?_cons_zero, List.getElem?_cons_succ,
          List.getElem?_nil, Option.some.injEq, Nat.zero_add] at ht harg <;>
        first
          | (subst ht; subst harg; rfl)
          | cases ht)
    rfl
  exact ⟨h.1, h.2.1, h.2.2 (.scalar 1 8) (.scalar 5 32) rfl⟩

end MirBlock
